import Mathlib

/-!
Shallow embedding of the compress_comics pipeline (src/main.rs) and proofs
about the specified behaviour of its extraction, transcoding and coordination
stages.  Filesystem state is an association list from structured paths to byte
lists; the external libraries (zlib inflate, libwebp encoding, image decoding
and resizing) are parameters of the embedded functions; `f32` arithmetic is
modelled exactly as IEEE binary32 round-to-nearest-even over ℚ.
-/

namespace CompressComics

/-- A filesystem path split the way the Rust `Path` accessors slice it:
`parent` directory, file `stem` and `ext`ension.  `Path::with_extension`
replaces only `ext`. -/
structure FPath where
  parent : String
  stem : String
  ext : String
deriving DecidableEq

/-- File contents as a list of byte values. -/
abbrev Bytes := List Nat

/-- The scratch filesystem: an association list from paths to contents.
The head entry for a path is its current content. -/
abbrev FS := List (FPath × Bytes)

/-- Look a path up in the filesystem. -/
def fsLookup (fs : FS) (p : FPath) : Option Bytes :=
  (fs.find? (fun e => decide (e.1 = p))).map (fun e => e.2)

/-- `fs::remove_file`: drop every entry at `p`. -/
def fsErase (fs : FS) (p : FPath) : FS :=
  fs.filter (fun e => decide (¬ e.1 = p))

/-- `fs::write` / `File::create`: create or truncate-and-overwrite the file at `p`. -/
def fsInsert (fs : FS) (p : FPath) (b : Bytes) : FS :=
  (p, b) :: fsErase fs p

/-- `Path::with_extension`: same parent and stem, new extension
(src/main.rs:583 `image_path.with_extension("webp")`). -/
def withExtension (p : FPath) (e : String) : FPath :=
  ⟨p.parent, p.stem, e⟩

/-!
IEEE binary32 arithmetic, modelled exactly over ℚ.  The Rust source performs
the CMYK→RGB conversion and the aspect-ratio computation in `f32`
(src/main.rs:429-437 and 572-579); each operation rounds its exact rational
result to the nearest binary32 value, ties to even.  All values arising in
this development are nonnegative and lie well inside the normal binary32
range, so neither subnormals, infinities nor negative zero need modelling.
-/

/-- `2 ^ e` in ℚ for an integer exponent, evaluated through `Nat.pow` so that
the kernel can reduce it. -/
def twoPow (e : ℤ) : ℚ :=
  if 0 ≤ e then ((2 ^ e.toNat : Nat) : ℚ) else 1 / ((2 ^ (-e).toNat : Nat) : ℚ)

/-- Bring a positive rational into `[1, 2)` by repeated doubling or halving,
returning the residue and the binary exponent.  Fuel-bounded structural
recursion; fuel 300 covers the whole binary32 range with a wide margin. -/
def normExp : Nat → ℚ → ℤ → ℚ × ℤ
  | 0, q, e => (q, e)
  | fuel + 1, q, e =>
    if q < 1 then normExp fuel (q * 2) (e - 1)
    else if 2 ≤ q then normExp fuel (q / 2) (e + 1)
    else (q, e)

/-- Round a rational to the nearest integer, ties to even (the IEEE default
rounding applied to a scaled mantissa). -/
def roundHalfEven (x : ℚ) : ℤ :=
  if x - ⌊x⌋ < 1 / 2 then ⌊x⌋
  else if 1 / 2 < x - ⌊x⌋ then ⌊x⌋ + 1
  else if ⌊x⌋ % 2 = 0 then ⌊x⌋ else ⌊x⌋ + 1

/-- Round a nonnegative rational to the nearest IEEE binary32 value
(24-bit significand, round to nearest, ties to even), returned as a rational. -/
def rnd32 (q : ℚ) : ℚ :=
  if q ≤ 0 then 0
  else
    let e : ℤ := (normExp 300 q 0).2 - 23
    ((roundHalfEven (q / twoPow e) : ℚ)) * twoPow e

/-- `f32` division. -/
def fdiv32 (a b : ℚ) : ℚ := rnd32 (a / b)

/-- `f32` subtraction. -/
def fsub32 (a b : ℚ) : ℚ := rnd32 (a - b)

/-- `f32` multiplication. -/
def fmul32 (a b : ℚ) : ℚ := rnd32 (a * b)

/-!
The image transcoder (src/main.rs:568-604).
-/

/-- `image::DynamicImage`, restricted to the pixel layouts relevant here:
8-bit RGB, 8-bit RGBA and 8-bit grayscale rasters with their dimensions. -/
inductive DynImage where
  | rgb8 (w h : Nat) (pix : List (Nat × Nat × Nat))
  | rgba8 (w h : Nat) (pix : List (Nat × Nat × Nat × Nat))
  | luma8 (w h : Nat) (pix : List Nat)
deriving DecidableEq

def DynImage.width : DynImage → Nat
  | .rgb8 w _ _ => w
  | .rgba8 w _ _ => w
  | .luma8 w _ _ => w

def DynImage.height : DynImage → Nat
  | .rgb8 _ h _ => h
  | .rgba8 _ h _ => h
  | .luma8 _ h _ => h

/-- `DynamicImage::to_rgb8` (called at src/main.rs:597): RGB is kept, RGBA
drops the alpha channel, grayscale replicates the luma value into all three
channels (the `image` crate's channel conversions). -/
def toRgb8 : DynImage → List (Nat × Nat × Nat)
  | .rgb8 _ _ p => p
  | .rgba8 _ _ p => p.map (fun x => (x.1, x.2.1, x.2.2.1))
  | .luma8 _ _ p => p.map (fun v => (v, v, v))

/-- The external libwebp encoder (`webp::Encoder::from_rgb(..).encode(q)`),
a parameter: it receives the width, height, RGB pixels and quality. -/
abbrev WebpEnc := Nat → Nat → List (Nat × Nat × Nat) → Nat → Bytes

/-- `encode_webp` (src/main.rs:596-604): convert to 8-bit RGB, then hand the
RGB raster to the webp encoder. -/
def encode_webp (enc : WebpEnc) (img : DynImage) (quality : Nat) : Bytes :=
  enc img.width img.height (toRgb8 img) quality

/-- The `new_width` computation of `process_single_image` (src/main.rs:572-579):
`aspect_ratio = width as f32 / height as f32`, then in both branches of the
`aspect_ratio > 1.3` conditional `(new_height as f32 * aspect_ratio) as u32`.
The `f32` literal `1.3` is `rnd32 (13/10)`; the `as u32` cast truncates toward
zero, modelled by `Int.toNat ∘ Int.floor` (all values here are nonnegative;
division by a zero height, which cannot occur for a decoded image, yields 0
here where Rust produces an infinity). -/
def new_width (targetHeight w h : Nat) : Nat :=
  let aspect : ℚ := fdiv32 (w : ℚ) (h : ℚ)
  if rnd32 (13 / 10) < aspect then (⌊fmul32 (targetHeight : ℚ) aspect⌋).toNat
  else (⌊fmul32 (targetHeight : ℚ) aspect⌋).toNat

/-- `process_single_image` (src/main.rs:568-594).  The external image codecs
are parameters: `decode` models `ImageReader::open(..).decode()` applied to the
file's bytes, `resize` models `DynamicImage::resize(new_width, new_height,
Lanczos3)`, `enc` the webp encoder.  Returns the updated filesystem and the
`result.is_ok()` flag the worker sends to the aggregator (src/main.rs:556):
`true` exactly when the image was processed (webp strictly smaller, webp
written, original removed), `false` when it was skipped.  The source writes
the webp file first and removes the original afterwards; the model does the
same, so they also agree in the degenerate case `path.ext = "webp"`. -/
def process_single_image (decode : Bytes → Except String DynImage)
    (resize : Nat → Nat → DynImage → DynImage) (enc : WebpEnc)
    (quality targetHeight : Nat) (fs : FS) (path : FPath) : FS × Bool :=
  match fsLookup fs path with
  | none => (fs, false)
  | some orig =>
    match decode orig with
    | .error _ => (fs, false)
    | .ok img =>
      let resized := resize (new_width targetHeight img.width img.height) targetHeight img
      let webpPath := withExtension path "webp"
      let webpBytes := encode_webp enc resized quality
      if webpBytes.length < orig.length then
        (fsErase (fsInsert fs webpPath webpBytes) path, true)
      else
        (fs, false)

/-!
The parallel transcode coordinator `process_images` (src/main.rs:526-566).
Workers send one `(path, result.is_ok())` message per image on a bounded
channel; a single spawned aggregator thread drains the channel, incrementing
the processed counter on `true` and the skipped counter on `false`, and after
each message republishes `30 + (processed + skipped) * 50 / total` as the
progress position.  The main thread drops the sender, sleeps 100 ms and then
reads the two counters; it does not join the aggregator thread, so at the
moment of the read the aggregator has consumed some prefix of the outcome
stream, not necessarily all of it.
-/

/-- One aggregator step (src/main.rs:541-546): `true` increments the
processed counter, `false` the skipped counter. -/
def aggStep (st : Nat × Nat) (success : Bool) : Nat × Nat :=
  if success then (st.1 + 1, st.2) else (st.1, st.2 + 1)

/-- The counters after the aggregator has consumed the given outcomes,
starting from `(0, 0)`. -/
def aggRun (outs : List Bool) : Nat × Nat :=
  outs.foldl aggStep (0, 0)

/-- The counter values `process_images` reads after its 100 ms grace sleep,
when the aggregator has so far consumed the first `k` of the outcomes.  The
sleep provides no synchronisation, so `k` may be anything up to
`outs.length`; only `k = outs.length` corresponds to a fully drained
channel. -/
def coordinatorRead (outs : List Bool) (k : Nat) : Nat × Nat :=
  aggRun (outs.take k)

/-- The progress position formula of the aggregator (src/main.rs:548-550):
`30 + ((processed + skipped) * 50) / total_images`, in integer division. -/
def progressPos (cnt total : Nat) : Nat :=
  30 + cnt * 50 / total

/-- The sequence of positions the aggregator publishes while consuming the
outcome stream: after the `(i+1)`-st outcome it publishes the formula applied
to the counters at that point. -/
def publishedPositions (outs : List Bool) (total : Nat) : List Nat :=
  (List.range outs.length).map (fun i =>
    let st := aggRun (outs.take (i + 1))
    progressPos (st.1 + st.2) total)

/-!
The CMYK→RGB conversion of the Flate path (src/main.rs:424-449), in `f32`.
-/

/-- One channel of the conversion (src/main.rs:429-437):
`((1.0 - c/255.0) * (1.0 - k/255.0) * 255.0) as u8`, every operation in
`f32` and the final cast truncating toward zero. -/
def cmykChannel (c k : Nat) : Nat :=
  let cf := fdiv32 (c : ℚ) 255
  let kf := fdiv32 (k : ℚ) 255
  (⌊fmul32 (fmul32 (fsub32 1 cf) (fsub32 1 kf)) 255⌋).toNat

/-- The `for chunk in decompressed_data.chunks(4)` loop (src/main.rs:428-440):
each 4-byte C,M,Y,K chunk yields the three converted R,G,B bytes.  A trailing
chunk shorter than 4 cannot occur on the guarded path (the length was checked
to be `width * height * 4`); it is modelled as producing nothing. -/
def cmykBufToRgb : Bytes → Bytes
  | c :: m :: y :: k :: rest =>
      cmykChannel c k :: cmykChannel m k :: cmykChannel y k :: cmykBufToRgb rest
  | _ => []

/-!
PDF image extraction (src/main.rs:264-459).  A document is modelled as its
page list; each page carries the entries of its `Resources → XObject`
dictionary, where `some s` is a stream whose `Subtype` is `Image` and `none`
is any other entry (non-image XObject, non-stream or non-reference), which
the source ignores.  The external zlib decoder (`flate2::ZlibDecoder`) is a
parameter.  Saving an image is modelled as producing a file record holding
the image number used in its `page_{:04}` name, its extension and the raster
bytes handed to the save call.
-/

/-- The color-space names the source dispatches on (src/main.rs:409-455). -/
inductive CSName where
  | deviceRGB
  | deviceGray
  | deviceCMYK
  | otherName
deriving DecidableEq

/-- The stream filters the source dispatches on (src/main.rs:347-371). -/
inductive StreamKind where
  | dct
  | flate
  | ccittFax
  | otherKind
deriving DecidableEq

/-- Extension of a produced page image file. -/
inductive ImgExt where
  | jpg
  | png
deriving DecidableEq

/-- One embedded image stream: the dictionary fields the source reads plus
its content bytes.  `colorSpace = none` models both a missing `ColorSpace`
entry and one that is not a `Name` object; `filter = none` a missing
`Filter` entry. -/
structure ImgStream where
  width : Nat
  height : Nat
  bpc : Nat
  colorSpace : Option CSName
  filter : Option StreamKind
  content : Bytes
deriving DecidableEq

/-- The external zlib inflate, a parameter. -/
abbrev Inflate := Bytes → Except String Bytes

/-- A zlib behaviour under which every stream inflates to its stored bytes;
used to instantiate the extraction theorems on concrete documents. -/
def zlibOk : Inflate := fun b => .ok b

/-- A produced page image file: image number, extension, raster bytes. -/
structure PdfFile where
  num : Nat
  ext : ImgExt
  data : Bytes
deriving DecidableEq

/-- `extract_flate_decoded_image` (src/main.rs:380-459): inflate, then
dispatch on (color space, bits per component).  `RgbImage::from_raw` and
`GrayImage::from_raw` fail exactly when the buffer is smaller than
`width * height * channels` (the `image` crate check); in the CMYK branch the
converted buffer always has exactly `width * height * 3` bytes, so its
`from_raw` cannot fail.  `none` means the image was skipped with a log line
and no file. -/
def extract_flate_decoded_image (inflate : Inflate) (s : ImgStream) :
    Except String (Option (ImgExt × Bytes)) :=
  match inflate s.content with
  | .error _ => .error "Failed to decompress image data"
  | .ok data =>
    match s.colorSpace, s.bpc with
    | some .deviceRGB, 8 =>
        if s.width * s.height * 3 ≤ data.length then .ok (some (.png, data))
        else .error "Failed to create RGB image from raw data"
    | some .deviceGray, 8 =>
        if s.width * s.height ≤ data.length then .ok (some (.png, data))
        else .error "Failed to create grayscale image from raw data"
    | some .deviceCMYK, 8 =>
        if data.length = s.width * s.height * 4 then
          .ok (some (.png, cmykBufToRgb data))
        else .error "CMYK data size mismatch"
    | _, _ => .ok none

/-- `extract_raw_image` (src/main.rs:461-503): no filter, the content bytes
are raw pixels; same color-space dispatch, without a CMYK branch. -/
def extract_raw_image (s : ImgStream) : Except String (Option (ImgExt × Bytes)) :=
  match s.colorSpace, s.bpc with
  | some .deviceRGB, 8 =>
      if s.width * s.height * 3 ≤ s.content.length then .ok (some (.png, s.content))
      else .error "Failed to create RGB image from raw data"
  | some .deviceGray, 8 =>
      if s.width * s.height ≤ s.content.length then .ok (some (.png, s.content))
      else .error "Failed to create grayscale image from raw data"
  | _, _ => .ok none

/-- `extract_image_from_stream` (src/main.rs:322-378): dispatch on the
declared filter.  DCT streams are saved verbatim as `.jpg`; CCITT and other
filters are skipped; no filter falls through to the raw-pixel path. -/
def extract_image_from_stream (inflate : Inflate) (s : ImgStream) :
    Except String (Option (ImgExt × Bytes)) :=
  match s.filter with
  | some .dct => .ok (some (.jpg, s.content))
  | some .flate => extract_flate_decoded_image inflate s
  | some .ccittFax => .ok none
  | some .otherKind => .ok none
  | none => extract_raw_image s

/-- The XObject entries of one page; `none` entries are ignored by the
source without touching the image counter. -/
abbrev XObjects := List (Option ImgStream)

/-- A document: its pages in document order. -/
abbrev PdfDoc := List XObjects

/-- The loop body of `extract_images_from_page` (src/main.rs:291-320) over
one page's XObject entries, threading the produced files and the shared
image counter.  The counter is incremented once per image stream whether or
not a file was produced; an error from `extract_image_from_stream`
propagates immediately (the `?` operator). -/
def runEntries (inflate : Inflate) :
    XObjects → List PdfFile → Nat → Except String (List PdfFile × Nat)
  | [], files, counter => .ok (files, counter)
  | none :: rest, files, counter => runEntries inflate rest files counter
  | some s :: rest, files, counter =>
    match extract_image_from_stream inflate s with
    | .error e => .error e
    | .ok none => runEntries inflate rest files (counter + 1)
    | .ok (some (ext, data)) =>
        runEntries inflate rest (files ++ [⟨counter, ext, data⟩]) (counter + 1)

/-- The page loop of `extract_pdf_archive` (src/main.rs:273-282). -/
def runPages (inflate : Inflate) :
    PdfDoc → List PdfFile → Nat → Except String (List PdfFile × Nat)
  | [], files, counter => .ok (files, counter)
  | p :: ps, files, counter =>
    match runEntries inflate p files counter with
    | .error e => .error e
    | .ok (files2, counter2) => runPages inflate ps files2 counter2

/-- `extract_pdf_archive` (src/main.rs:264-289): run all pages with the
counter starting at 1; if the counter is still 1 afterwards, fail with the
no-images error, otherwise return the produced files. -/
def extract_pdf_archive (inflate : Inflate) (doc : PdfDoc) :
    Except String (List PdfFile) :=
  match runPages inflate doc [] 1 with
  | .error e => .error e
  | .ok (files, counter) =>
    if counter = 1 then
      .error "No images found in PDF - this might not be a comic book PDF with embedded images"
    else .ok files

/-- The image streams of a document, in processing order. -/
def imageEntries (doc : PdfDoc) : List ImgStream :=
  doc.flatten.filterMap id

/-- Whether an `Except` value is an error. -/
def exIsErr {α : Type} : Except String α → Bool
  | .error _ => true
  | .ok _ => false

/-!
CBR extraction with zip fallback (src/main.rs:195-262).  The external unrar
and zip libraries are parameters, given by their observable behaviour on the
one archive being extracted: the list of entries they write into the scratch
directory, and whether (and how) they fail.
-/

/-- Behaviour of the unrar library on a given archive: the entries it
extracts into the scratch directory before the header loop either finishes
(`fail = none`) or aborts (`fail = some e`, a header-read or entry-extract
error).  Entries already extracted stay on disk in either case. -/
structure RarRun where
  extracted : List (FPath × Bytes)
  fail : Option String

/-- Behaviour of the zip library on a given archive: either the full entry
list or an open/read error. -/
abbrev ZipRun := Except String (List (FPath × Bytes))

/-- Write a list of extracted entries into the scratch filesystem in order. -/
def writeEntries (fs : FS) (entries : List (FPath × Bytes)) : FS :=
  entries.foldl (fun acc e => fsInsert acc e.1 e.2) fs

/-- `extract_rar_archive` (src/main.rs:234-262): the entries extracted so
far are written to the scratch directory; the error, if any, is returned
after them. -/
def extract_rar_archive (fs : FS) (r : RarRun) : FS × Option String :=
  (writeEntries fs r.extracted, r.fail)

/-- `extract_zip_archive` (src/main.rs:214-232) on the same scratch
directory. -/
def extract_zip_archive (fs : FS) (z : ZipRun) : Except String FS :=
  match z with
  | .error e => .error e
  | .ok entries => .ok (writeEntries fs entries)

/-- The `ComicType::Cbr` arm of `extract_comic` (src/main.rs:200-206): try
RAR extraction; if it returns an error, retry the same scratch directory as
a zip archive.  Nothing is removed between the two attempts. -/
def extract_comic_cbr (fs : FS) (r : RarRun) (z : ZipRun) : Except String FS :=
  let rarOut := extract_rar_archive fs r
  match rarOut.2 with
  | none => .ok rarOut.1
  | some _ => extract_zip_archive rarOut.1 z

/-!
Output path generation (src/main.rs:626-630).
-/

/-- `generate_output_path`: the parent directory joined with the file name
`format!("{} optimized_webp_q{}.cbr", stem, quality)`.  Returned as the pair
(parent directory, file name). -/
def generate_output_path (input : FPath) (quality : Nat) : String × String :=
  (input.parent, input.stem ++ " optimized_webp_q" ++ Nat.repr quality ++ ".cbr")

/-!
Concrete instances used to evaluate the theorems below.
-/

/-- A CCITT-fax image stream: skipped by the dispatch, producing no file. -/
def ccittStream : ImgStream := ⟨100, 50, 1, some .deviceGray, some .ccittFax, [3, 1, 4]⟩

/-- A DCT (JPEG) image stream: saved verbatim. -/
def dctStream : ImgStream := ⟨2, 3, 8, none, some .dct, [7]⟩

/-- A Flate CMYK stream whose inflated data is 3 bytes instead of the
required `1 * 1 * 4`. -/
def badCmykStream : ImgStream := ⟨1, 1, 8, some .deviceCMYK, some .flate, [0, 0, 0]⟩

/-- A Flate stream with an unrecognised color-space name: skipped, not fatal. -/
def otherCsStream : ImgStream := ⟨1, 1, 8, some .otherName, some .flate, []⟩

/-- A 1×1 Flate CMYK stream holding the single pixel (255, 255, 255, 0). -/
def cmykMaxStream : ImgStream := ⟨1, 1, 8, some .deviceCMYK, some .flate, [255, 255, 255, 0]⟩

/-- A 1×1 Flate CMYK stream holding the single pixel (0, 0, 0, 0). -/
def cmykZeroStream : ImgStream := ⟨1, 1, 8, some .deviceCMYK, some .flate, [0, 0, 0, 0]⟩

/-- An unrar run that extracts one entry and then fails on a header read. -/
def rarFailRun : RarRun := ⟨[(⟨"t", "a", "png"⟩, [1])], some "Failed to read RAR header"⟩

/-- A zip run that extracts a single entry successfully. -/
def zipOkRun : ZipRun := .ok [(⟨"t", "b", "png"⟩, [2])]

/-- A decoder returning a fixed 1×1 RGB image, for witness evaluation. -/
def decodeW : Bytes → Except String DynImage := fun _ => .ok (.rgb8 1 1 [(1, 2, 3)])

/-- An identity resizer, for witness evaluation. -/
def resizeW : Nat → Nat → DynImage → DynImage := fun _ _ img => img

/-- A webp encoder always producing the single byte `[9]`, for witness
evaluation. -/
def encW : WebpEnc := fun _ _ _ _ => [9]

/-- A one-file scratch filesystem, for witness evaluation. -/
def fsW : FS := [(⟨"d", "page", "png"⟩, [5, 6])]

/-- The spec's resize-width formula taken at its word: `round(newHeight *
aspectRatio)` with exact rational arithmetic and true rounding.  Stated only
to compare against the source's `new_width`. -/
def newWidthSpecRounded (targetHeight w h : Nat) : ℤ :=
  round ((targetHeight : ℚ) * ((w : ℚ) / (h : ℚ)))

/-!
Helper lemmas.
-/

theorem fsLookup_cons (a : FPath × Bytes) (fs : FS) (p : FPath) :
    fsLookup (a :: fs) p = if a.1 = p then some a.2 else fsLookup fs p := by
  by_cases h : a.1 = p <;> simp [fsLookup, List.find?, h]

theorem fsErase_cons (a : FPath × Bytes) (fs : FS) (q : FPath) :
    fsErase (a :: fs) q = if a.1 = q then fsErase fs q else a :: fsErase fs q := by
  by_cases h : a.1 = q <;> simp [fsErase, List.filter_cons, h]

theorem fsLookup_insert_self (fs : FS) (p : FPath) (b : Bytes) :
    fsLookup (fsInsert fs p b) p = some b := by
  rw [fsInsert, fsLookup_cons]
  simp

theorem fsLookup_erase_self (fs : FS) (p : FPath) :
    fsLookup (fsErase fs p) p = none := by
  induction fs with
  | nil => rfl
  | cons a fs ih =>
    rw [fsErase_cons]
    by_cases h : a.1 = p
    · rw [if_pos h]
      exact ih
    · rw [if_neg h, fsLookup_cons, if_neg h]
      exact ih

theorem fsLookup_erase_ne (fs : FS) (p q : FPath) (h : ¬ p = q) :
    fsLookup (fsErase fs q) p = fsLookup fs p := by
  induction fs with
  | nil => rfl
  | cons a fs ih =>
    rw [fsErase_cons, fsLookup_cons]
    by_cases ha : a.1 = q
    · rw [if_pos ha, ih, if_neg]
      intro hc
      exact h (by rw [← hc, ha])
    · rw [if_neg ha, fsLookup_cons]
      by_cases hap : a.1 = p
      · rw [if_pos hap, if_pos hap]
      · rw [if_neg hap, if_neg hap, ih]

theorem aggRun_foldl_sum (outs : List Bool) (p s : Nat) :
    (outs.foldl aggStep (p, s)).1 + (outs.foldl aggStep (p, s)).2
      = p + s + outs.length := by
  induction outs generalizing p s with
  | nil => simp
  | cons b t ih =>
    cases b <;> simp [aggStep, List.foldl, ih] <;> omega

theorem aggRun_sum (outs : List Bool) :
    (aggRun outs).1 + (aggRun outs).2 = outs.length := by
  simpa using aggRun_foldl_sum outs 0 0

/-- C1: for an image file the transcoder can open and decode, if the encoded
webp output is strictly smaller in bytes than the original file then the
output is written beside the original (same parent and stem, `webp`
extension), the original is deleted, and the worker reports the image as
processed (`true`); if the encoded output is not strictly smaller, the
filesystem is unchanged — the original is byte-identical and no webp file
appears — and the worker reports it as skipped (`false`). -/
theorem transcoder_size_gate (decode : Bytes → Except String DynImage)
    (resize : Nat → Nat → DynImage → DynImage) (enc : WebpEnc)
    (quality targetHeight : Nat) (fs : FS) (path : FPath) (orig : Bytes)
    (img : DynImage) (hfind : fsLookup fs path = some orig)
    (hext : ¬ path.ext = "webp") (hdec : decode orig = .ok img) :
    let webpBytes := encode_webp enc
      (resize (new_width targetHeight img.width img.height) targetHeight img) quality
    let webpPath := withExtension path "webp"
    let out := process_single_image decode resize enc quality targetHeight fs path
    (webpPath.parent = path.parent ∧ webpPath.stem = path.stem ∧ webpPath.ext = "webp")
    ∧ (webpBytes.length < orig.length →
        out.2 = true ∧ fsLookup out.1 webpPath = some webpBytes
          ∧ fsLookup out.1 path = none)
    ∧ (¬ webpBytes.length < orig.length →
        out.2 = false ∧ out.1 = fs ∧ fsLookup out.1 path = some orig
          ∧ fsLookup out.1 webpPath = fsLookup fs webpPath) := by
  intro webpBytes webpPath out
  have hne : ¬ webpPath = path := by
    intro hc
    exact hext (by rw [← hc]; rfl)
  have hout : out = if webpBytes.length < orig.length then
      (fsErase (fsInsert fs webpPath webpBytes) path, true) else (fs, false) := by
    simp only [out, process_single_image, hfind, hdec]
  refine ⟨⟨rfl, rfl, rfl⟩, ?_, ?_⟩
  · intro hlt
    rw [hout, if_pos hlt]
    refine ⟨rfl, ?_, ?_⟩
    · rw [fsLookup_erase_ne _ _ _ hne, fsLookup_insert_self]
    · exact fsLookup_erase_self _ _
  · intro hge
    rw [hout, if_neg hge]
    exact ⟨rfl, rfl, hfind, rfl⟩

/-- Witness for C1 at a concrete instance: a 2-byte original whose encoding
is 1 byte is replaced by the webp file and reported processed. -/
theorem transcoder_size_gate_witness :
    (process_single_image decodeW resizeW encW 90 1800 fsW ⟨"d", "page", "png"⟩).2 = true
    ∧ fsLookup (process_single_image decodeW resizeW encW 90 1800 fsW
        ⟨"d", "page", "png"⟩).1 ⟨"d", "page", "webp"⟩ = some [9]
    ∧ fsLookup (process_single_image decodeW resizeW encW 90 1800 fsW
        ⟨"d", "page", "png"⟩).1 ⟨"d", "page", "png"⟩ = none := by
  have h := transcoder_size_gate decodeW resizeW encW 90 1800 fsW
    ⟨"d", "page", "png"⟩ [5, 6] (.rgb8 1 1 [(1, 2, 3)]) (by decide) (by decide) rfl
  exact h.2.1 (by decide)

/-- C2: the coordinator reads its counters after a fixed 100 ms sleep
without joining the aggregator thread, so the read may happen before the
channel has been drained: with one image whose transcode succeeded, reading
after 0 drained outcomes yields counters (0, 0), whose sum is not the image
count 1; only the fully drained read yields (1, 0). -/
theorem coordinator_grace_sleep_bug :
    coordinatorRead [true] 0 = (0, 0)
    ∧ ¬ ((coordinatorRead [true] 0).1 + (coordinatorRead [true] 0).2 = 1)
    ∧ coordinatorRead [true] 1 = (1, 0)
    ∧ (coordinatorRead [true] 1).1 + (coordinatorRead [true] 1).2 = 1 := by
  refine ⟨rfl, by decide, rfl, rfl⟩

/-- C5 counterexample: for a `cbz` input the generated output name ends in
`.cbr`, not in the input container's extension `.cbz`. -/
theorem output_path_counterexample :
    generate_output_path ⟨"dir", "book", "cbz"⟩ 90
      = ("dir", "book optimized_webp_q90.cbr")
    ∧ ¬ ("book optimized_webp_q90.cbr" = "book optimized_webp_q90" ++ "." ++ "cbz") := by
  refine ⟨rfl, by decide⟩

/-- C5 (amended): the output path is a deterministic pure function of the
input's parent directory, file stem and quality alone — the input extension
does not influence it — and its file name is
`<stem> optimized_webp_q<quality>.cbr`, with the fixed `cbr` extension. -/
theorem output_path_amended (input : FPath) (quality : Nat) :
    (generate_output_path input quality).1 = input.parent
    ∧ (generate_output_path input quality).2
        = input.stem ++ " optimized_webp_q" ++ Nat.repr quality ++ ".cbr"
    ∧ (∀ e : String, generate_output_path ⟨input.parent, input.stem, e⟩ quality
        = generate_output_path input quality) := by
  exact ⟨rfl, rfl, fun e => rfl⟩

/-- C7 counterexample: the source truncates `newHeight * aspectRatio` toward
zero, it does not round: at targetHeight 3 and a 1×2 image the code computes
width 1 while the spec's `round(newHeight * aspectRatio)` formula gives 2. -/
theorem new_width_counterexample :
    new_width 3 1 2 = 1 ∧ newWidthSpecRounded 3 1 2 = 2 := by
  constructor
  · with_unfolding_all rfl
  · rw [newWidthSpecRounded]
    norm_num [round_eq]

/-- C7 (amended): both branches of the `aspect_ratio > 1.3` conditional
compute the same value, so the resize policy is independent of the branch:
`new_width` always equals the truncation of `targetHeight * (w / h)`
evaluated in `f32`. -/
theorem new_width_amended (targetHeight w h : Nat) :
    new_width targetHeight w h
      = (⌊fmul32 (targetHeight : ℚ) (fdiv32 (w : ℚ) (h : ℚ))⌋).toNat := by
  rw [new_width]
  exact ite_self _

/-- C3 counterexample: when the RAR attempt fails after extracting entry
`t/a.png`, the zip retry runs over the same scratch directory, so the
partial RAR output is still present in the successful result — it is not
discarded as the claim states. -/
theorem cbr_fallback_counterexample :
    extract_comic_cbr [] rarFailRun zipOkRun
      = .ok [(⟨"t", "b", "png"⟩, [2]), (⟨"t", "a", "png"⟩, [1])]
    ∧ fsLookup [(⟨"t", "b", "png"⟩, [2]), (⟨"t", "a", "png"⟩, [1])] ⟨"t", "a", "png"⟩
        = some [1] := by
  refine ⟨rfl, by decide⟩

/-- C3 (amended): for a cbr container, RAR extraction is attempted first; on
any RAR failure the archive is re-extracted as zip into the same scratch
directory, on top of whatever the failed RAR attempt already wrote (partial
output is not discarded); an extraction error is surfaced if and only if
both the RAR and the zip attempts fail. -/
theorem cbr_fallback_amended (fs : FS) (r : RarRun) (z : ZipRun) :
    extract_comic_cbr fs r z
      = (match r.fail with
         | none => .ok (writeEntries fs r.extracted)
         | some _ => extract_zip_archive (writeEntries fs r.extracted) z)
    ∧ (exIsErr (extract_comic_cbr fs r z) = true
        ↔ (¬ r.fail = none ∧ ∃ e, z = Except.error e)) := by
  cases hf : r.fail with
  | none =>
    refine ⟨by simp [extract_comic_cbr, extract_rar_archive, hf], ?_⟩
    simp [extract_comic_cbr, extract_rar_archive, hf, exIsErr]
  | some e =>
    cases z with
    | error ze =>
      refine ⟨by simp [extract_comic_cbr, extract_rar_archive, hf], ?_⟩
      simp [extract_comic_cbr, extract_rar_archive, extract_zip_archive, hf, exIsErr]
    | ok entries =>
      refine ⟨by simp [extract_comic_cbr, extract_rar_archive, hf], ?_⟩
      simp [extract_comic_cbr, extract_rar_archive, extract_zip_archive, hf, exIsErr]

/-- C8: after each outcome the aggregator consumes, the published progress
position equals `30 + ((processed + skipped) * 50) / total`, the
processed+skipped sum at the `(i+1)`-st outcome is `i+1`, the position
sequence is monotonically non-decreasing, and every published position lies
within `[30, 80]`. -/
theorem aggregator_progress (outs : List Bool) (total i j : Nat)
    (htotal : outs.length ≤ total) (hi : i < outs.length) (hj : j < outs.length)
    (hij : i ≤ j) :
    (publishedPositions outs total).getD i 0 = 30 + ((i + 1) * 50) / total
    ∧ (aggRun (outs.take (i + 1))).1 + (aggRun (outs.take (i + 1))).2 = i + 1
    ∧ (publishedPositions outs total).getD i 0
        ≤ (publishedPositions outs total).getD j 0
    ∧ 30 ≤ (publishedPositions outs total).getD i 0
    ∧ (publishedPositions outs total).getD i 0 ≤ 80 := by
  have htake : ∀ k : Nat, k < outs.length →
      (aggRun (outs.take (k + 1))).1 + (aggRun (outs.take (k + 1))).2 = k + 1 := by
    intro k hk
    rw [aggRun_sum, List.length_take]
    omega
  have hget : ∀ k : Nat, k < outs.length →
      (publishedPositions outs total).getD k 0 = 30 + ((k + 1) * 50) / total := by
    intro k hk
    have hlen : k < ((List.range outs.length).map (fun i =>
        let st := aggRun (outs.take (i + 1))
        progressPos (st.1 + st.2) total)).length := by
      simpa using hk
    rw [publishedPositions, List.getD_eq_getElem _ _ hlen]
    simp only [List.getElem_map, List.getElem_range]
    rw [progressPos, htake k hk]
  have hpos : 0 < total := lt_of_lt_of_le (Nat.lt_of_le_of_lt (Nat.zero_le i) hi) htotal
  have hbound : ∀ k : Nat, k < outs.length → ((k + 1) * 50) / total ≤ 50 := by
    intro k hk
    have h1 : (k + 1) * 50 ≤ total * 50 := by
      have : k + 1 ≤ total := le_trans hk htotal
      exact Nat.mul_le_mul_right 50 this
    calc ((k + 1) * 50) / total ≤ (total * 50) / total := Nat.div_le_div_right h1
      _ = 50 := by rw [Nat.mul_comm, Nat.mul_div_cancel _ hpos]
  refine ⟨hget i hi, htake i hi, ?_, ?_, ?_⟩
  · rw [hget i hi, hget j hj]
    exact Nat.add_le_add_left (Nat.div_le_div_right (Nat.mul_le_mul_right 50 (by omega))) 30
  · rw [hget i hi]
    exact Nat.le_add_right 30 _
  · rw [hget i hi]
    exact Nat.add_le_add_left (hbound i hi) 30

/-- Witness for C8 on the outcome stream [processed, skipped] with two
images: the published positions are 55 then 80. -/
theorem aggregator_progress_witness :
    (publishedPositions [true, false] 2).getD 0 0 = 30 + ((0 + 1) * 50) / 2
    ∧ (aggRun ([true, false].take (0 + 1))).1
        + (aggRun ([true, false].take (0 + 1))).2 = 0 + 1
    ∧ (publishedPositions [true, false] 2).getD 0 0
        ≤ (publishedPositions [true, false] 2).getD 1 0
    ∧ 30 ≤ (publishedPositions [true, false] 2).getD 0 0
    ∧ (publishedPositions [true, false] 2).getD 0 0 ≤ 80 :=
  aggregator_progress [true, false] 2 0 1 (by decide) (by decide) (by decide) (by decide)

theorem imageEntries_nil : imageEntries ([] : PdfDoc) = [] := rfl

theorem imageEntries_cons (p : XObjects) (ps : PdfDoc) :
    imageEntries (p :: ps) = p.filterMap id ++ imageEntries ps := by
  simp [imageEntries]

theorem runEntries_ok (inflate : Inflate) (entries : XObjects)
    (files : List PdfFile) (c : Nat)
    (h : ∀ s ∈ entries.filterMap id,
      exIsErr (extract_image_from_stream inflate s) = false) :
    ∃ files2, runEntries inflate entries files c
      = .ok (files2, c + (entries.filterMap id).length) := by
  induction entries generalizing files c with
  | nil => exact ⟨files, by simp [runEntries]⟩
  | cons hd tl ih =>
    cases hd with
    | none =>
      obtain ⟨f2, hf2⟩ := ih files c (by simpa using h)
      exact ⟨f2, by simpa [runEntries] using hf2⟩
    | some s =>
      have hs : exIsErr (extract_image_from_stream inflate s) = false :=
        h s (by simp)
      have htl : ∀ t ∈ tl.filterMap id,
          exIsErr (extract_image_from_stream inflate t) = false := by
        intro t ht
        exact h t (by simp [ht])
      cases hex : extract_image_from_stream inflate s with
      | error e =>
        rw [hex] at hs
        exact absurd hs (by simp [exIsErr])
      | ok r =>
        have hlen : ((some s :: tl).filterMap id).length
            = (tl.filterMap id).length + 1 := by simp
        cases r with
        | none =>
          obtain ⟨f2, hf2⟩ := ih files (c + 1) htl
          refine ⟨f2, ?_⟩
          rw [hlen]
          have harith : c + ((tl.filterMap id).length + 1)
              = c + 1 + (tl.filterMap id).length := by omega
          rw [harith]
          simp only [runEntries]
          rw [hex]
          exact hf2
        | some fd =>
          obtain ⟨f2, hf2⟩ := ih (files ++ [⟨c, fd.1, fd.2⟩]) (c + 1) htl
          refine ⟨f2, ?_⟩
          rw [hlen]
          have harith : c + ((tl.filterMap id).length + 1)
              = c + 1 + (tl.filterMap id).length := by omega
          rw [harith]
          simp only [runEntries]
          rw [hex]
          exact hf2

theorem runPages_ok (inflate : Inflate) (doc : PdfDoc)
    (files : List PdfFile) (c : Nat)
    (h : ∀ s ∈ imageEntries doc,
      exIsErr (extract_image_from_stream inflate s) = false) :
    ∃ files2, runPages inflate doc files c
      = .ok (files2, c + (imageEntries doc).length) := by
  induction doc generalizing files c with
  | nil => exact ⟨files, by simp [runPages, imageEntries_nil]⟩
  | cons p ps ih =>
    have hp : ∀ s ∈ p.filterMap id,
        exIsErr (extract_image_from_stream inflate s) = false := by
      intro s hs
      refine h s ?_
      rw [imageEntries_cons]
      exact List.mem_append_left _ hs
    have hps : ∀ s ∈ imageEntries ps,
        exIsErr (extract_image_from_stream inflate s) = false := by
      intro s hs
      refine h s ?_
      rw [imageEntries_cons]
      exact List.mem_append_right _ hs
    obtain ⟨f1, hf1⟩ := runEntries_ok inflate p files c hp
    obtain ⟨f2, hf2⟩ := ih f1 (c + (p.filterMap id).length) hps
    refine ⟨f2, ?_⟩
    rw [imageEntries_cons, List.length_append, ← Nat.add_assoc]
    simp only [runPages]
    rw [hf1]
    exact hf2

theorem runEntries_err (inflate : Inflate) (entries : XObjects) (s : ImgStream)
    (he : exIsErr (extract_image_from_stream inflate s) = true) :
    ∀ (files : List PdfFile) (c : Nat), s ∈ entries.filterMap id →
      ∃ e, runEntries inflate entries files c = .error e := by
  induction entries with
  | nil =>
    intro files c hs
    exact absurd hs (by simp)
  | cons hd tl ih =>
    intro files c hs
    cases hd with
    | none => exact ih files c (by simpa using hs)
    | some t =>
      cases hex : extract_image_from_stream inflate t with
      | error e => exact ⟨e, by simp only [runEntries]; rw [hex]⟩
      | ok r =>
        have hst : s = t ∨ s ∈ tl.filterMap id := by simpa using hs
        cases hst with
        | inl hst =>
          rw [hst, hex] at he
          exact absurd he (by simp [exIsErr])
        | inr hmem =>
          cases r with
          | none =>
            obtain ⟨e, hrec⟩ := ih files (c + 1) hmem
            exact ⟨e, by simp only [runEntries]; rw [hex]; exact hrec⟩
          | some fd =>
            obtain ⟨e, hrec⟩ := ih (files ++ [⟨c, fd.1, fd.2⟩]) (c + 1) hmem
            exact ⟨e, by simp only [runEntries]; rw [hex]; exact hrec⟩

theorem runPages_err (inflate : Inflate) (doc : PdfDoc) (s : ImgStream)
    (he : exIsErr (extract_image_from_stream inflate s) = true) :
    ∀ (files : List PdfFile) (c : Nat), s ∈ imageEntries doc →
      ∃ e, runPages inflate doc files c = .error e := by
  induction doc with
  | nil =>
    intro files c hs
    exact absurd hs (by simp [imageEntries_nil])
  | cons p ps ih =>
    intro files c hs
    rw [imageEntries_cons] at hs
    cases List.mem_append.mp hs with
    | inl hmem =>
      obtain ⟨e, hre⟩ := runEntries_err inflate p s he files c hmem
      exact ⟨e, by simp only [runPages]; rw [hre]⟩
    | inr hmem =>
      cases hre : runEntries inflate p files c with
      | error e => exact ⟨e, by simp only [runPages]; rw [hre]⟩
      | ok out =>
        obtain ⟨e, hrec⟩ := ih out.1 out.2 hmem
        refine ⟨e, ?_⟩
        simp only [runPages]
        rw [hre]
        exact hrec

/-- C4 counterexample: a document whose single image XObject is a skipped
CCITT stream extracts zero images yet succeeds (with an empty file list),
because the counter counts attempted images, not produced files; and a
document whose first image is extracted still fails overall when a later
stream errors. -/
theorem pdf_zero_image_counterexample :
    extract_pdf_archive zlibOk [[some ccittStream]] = .ok []
    ∧ extract_pdf_archive zlibOk [[some dctStream, some badCmykStream]]
        = .error "CMYK data size mismatch" := by
  exact ⟨rfl, rfl⟩

/-- C4 (amended): provided no stream produces a decode error, extraction of
a document fails (with the no-images error) exactly when the document
contains no image XObject at all; skipped images count as encountered, so a
document whose images are all skipped succeeds despite producing no files. -/
theorem pdf_zero_image_amended (inflate : Inflate) (doc : PdfDoc)
    (h : ∀ s ∈ imageEntries doc,
      exIsErr (extract_image_from_stream inflate s) = false) :
    exIsErr (extract_pdf_archive inflate doc) = true ↔ imageEntries doc = [] := by
  obtain ⟨f2, hf2⟩ := runPages_ok inflate doc [] 1 h
  rw [extract_pdf_archive, hf2]
  by_cases hN : imageEntries doc = []
  · simp [hN, exIsErr]
  · have hlen : ¬ (1 + (imageEntries doc).length = 1) := by
      have := List.length_pos.mpr hN
      omega
    simp [exIsErr, hlen, hN]

/-- Witness for C4 (amended) on the one-CCITT-stream document: no stream
errors, the document has an image entry, so extraction does not fail. -/
theorem pdf_zero_image_amended_witness :
    (exIsErr (extract_pdf_archive zlibOk [[some ccittStream]]) = true
      ↔ imageEntries [[some ccittStream]] = []) :=
  pdf_zero_image_amended zlibOk [[some ccittStream]] (by decide)

/-- C9: a Flate-path 8-bit DeviceCMYK stream whose inflated data length is
not `width * height * 4` yields the error "CMYK data size mismatch", and
that error aborts extraction of the whole document containing the stream;
by contrast an unsupported color-space stream is skipped without aborting —
a document holding one unsupported-color-space stream followed by a DCT
stream still extracts the DCT image (numbered 2, the skip having consumed
image number 1). -/
theorem cmyk_mismatch_aborts (inflate : Inflate) (doc : PdfDoc) (s : ImgStream)
    (d : Bytes) (hs : s ∈ imageEntries doc) (hfil : s.filter = some .flate)
    (hcs : s.colorSpace = some .deviceCMYK) (hbpc : s.bpc = 8)
    (hinf : inflate s.content = .ok d)
    (hlen : ¬ d.length = s.width * s.height * 4) :
    extract_image_from_stream inflate s = .error "CMYK data size mismatch"
    ∧ (∃ e, extract_pdf_archive inflate doc = .error e)
    ∧ extract_pdf_archive zlibOk [[some otherCsStream, some dctStream]]
        = .ok [⟨2, .jpg, [7]⟩] := by
  have h1 : extract_image_from_stream inflate s = .error "CMYK data size mismatch" := by
    obtain ⟨sw, sh, sbpc, scs, sfil, scont⟩ := s
    simp only at hfil hcs hbpc hinf hlen
    subst hfil
    subst hcs
    subst hbpc
    simp only [extract_image_from_stream, extract_flate_decoded_image]
    rw [hinf]
    simp [hlen]
  refine ⟨h1, ?_, rfl⟩
  have herr : exIsErr (extract_image_from_stream inflate s) = true := by
    rw [h1]
    rfl
  obtain ⟨e, he⟩ := runPages_err inflate doc s herr [] 1 hs
  refine ⟨e, ?_⟩
  rw [extract_pdf_archive, he]

/-- Witness for C9 on a concrete document: a good DCT stream followed by a
mismatched CMYK stream; the whole extraction errors. -/
theorem cmyk_mismatch_aborts_witness :
    extract_image_from_stream zlibOk badCmykStream = .error "CMYK data size mismatch"
    ∧ (∃ e, extract_pdf_archive zlibOk [[some dctStream, some badCmykStream]]
        = .error e)
    ∧ extract_pdf_archive zlibOk [[some otherCsStream, some dctStream]]
        = .ok [⟨2, .jpg, [7]⟩] :=
  cmyk_mismatch_aborts zlibOk [[some dctStream, some badCmykStream]] badCmykStream
    [0, 0, 0] (by decide) rfl rfl rfl rfl (by decide)

/-- C6 counterexample: the conversion is computed in `f32`, which does not
always agree with the exact formula: for the CMYK pixel (0, 0, 0, 65) the
code produces the RGB byte 189 in every channel, while the exact value of
`(1 − C)(1 − K) · 255` at C = 0, K = 65/255 is the integer 190 — so the
produced pixel differs from the claimed formula under any rounding. -/
theorem cmyk_formula_counterexample :
    cmykBufToRgb [0, 0, 0, 65] = [189, 189, 189]
    ∧ (1 - (0 : ℚ) / 255) * (1 - (65 : ℚ) / 255) * 255 = 190 := by
  constructor
  · with_unfolding_all rfl
  · norm_num

/-- C6 (amended): on the Flate path each 8-bit DeviceCMYK pixel (C, M, Y, K)
is converted channel-wise by `(1 − C/255) · (1 − K/255) · 255` evaluated in
binary32 floating point with the result truncated toward zero (which can be
one less than the exact formula value); in particular the pixel
(255, 255, 255, 0) maps to RGB (0, 0, 0) and (0, 0, 0, 0) maps to
(255, 255, 255), exactly as claimed, through the full Flate extraction
path. -/
theorem cmyk_flate_conversion (c m y k : Nat) (rest : Bytes) :
    cmykBufToRgb (c :: m :: y :: k :: rest)
      = (⌊fmul32 (fmul32 (fsub32 1 (fdiv32 (c : ℚ) 255))
            (fsub32 1 (fdiv32 (k : ℚ) 255))) 255⌋).toNat
        :: (⌊fmul32 (fmul32 (fsub32 1 (fdiv32 (m : ℚ) 255))
            (fsub32 1 (fdiv32 (k : ℚ) 255))) 255⌋).toNat
        :: (⌊fmul32 (fmul32 (fsub32 1 (fdiv32 (y : ℚ) 255))
            (fsub32 1 (fdiv32 (k : ℚ) 255))) 255⌋).toNat
        :: cmykBufToRgb rest
    ∧ extract_flate_decoded_image zlibOk cmykMaxStream = .ok (some (.png, [0, 0, 0]))
    ∧ extract_flate_decoded_image zlibOk cmykZeroStream
        = .ok (some (.png, [255, 255, 255])) := by
  refine ⟨rfl, ?_, ?_⟩
  · with_unfolding_all rfl
  · with_unfolding_all rfl

/-- C10: the webp encoder is always handed the 3-channel 8-bit RGB
projection of the resampled image: an RGBA raster encodes exactly as the
RGB raster obtained by dropping its alpha channel, a grayscale raster
encodes exactly as the RGB raster replicating its luma value, and the whole
transcoder's behaviour is unchanged if the resized image is replaced by its
RGB projection before encoding. -/
theorem webp_rgb_projection (enc : WebpEnc) (quality : Nat) :
    (∀ (w h : Nat) (pix : List (Nat × Nat × Nat × Nat)),
        encode_webp enc (.rgba8 w h pix) quality
          = encode_webp enc
              (.rgb8 w h (pix.map (fun x => (x.1, x.2.1, x.2.2.1)))) quality)
    ∧ (∀ (w h : Nat) (lum : List Nat),
        encode_webp enc (.luma8 w h lum) quality
          = encode_webp enc (.rgb8 w h (lum.map (fun v => (v, v, v)))) quality)
    ∧ (∀ (decode : Bytes → Except String DynImage)
        (resize : Nat → Nat → DynImage → DynImage) (targetHeight : Nat)
        (fs : FS) (path : FPath),
        process_single_image decode resize enc quality targetHeight fs path
          = process_single_image decode
              (fun nw nh img => .rgb8 (resize nw nh img).width
                  (resize nw nh img).height (toRgb8 (resize nw nh img)))
              enc quality targetHeight fs path) := by
  refine ⟨fun w h pix => rfl, fun w h lum => rfl,
    fun decode resize targetHeight fs path => rfl⟩

end CompressComics
